import Mathlib

/-!
Verification of the day13 Intcode machine and arcade World
(`src/day13/src/main.rs`) against its natural-language specification.

The Rust code is shallowly embedded: machine integers (`i64`) become
unbounded `Int` with Rust's truncating division/remainder (`Int.tdiv`,
`Int.tmod`); a Rust panic (index out of bounds, bad addressing mode) is
`none`; the `loop` in `Machine::run` and the `loop` in `World::play`
become fuel-indexed recursions where `none` also covers fuel exhaustion.
-/

namespace Day13

/-- `enum MachineStatus` from the source (`BadOpcode` carries the bad code). -/
inductive MachineStatus where
  | Runnable : MachineStatus
  | Blocked : MachineStatus
  | Finished : MachineStatus
  | BadOpcode : Int → MachineStatus
deriving DecidableEq, Repr

/-- `struct Machine`: memory, instruction pointer, input/output queues with
read cursors, status, relative base. -/
structure Machine where
  mem : List Int
  pos : Nat
  inputs : List Int
  outputs : List Int
  input_pos : Nat
  output_pos : Nat
  status : MachineStatus
  relative_base : Int
deriving DecidableEq, Repr

/-- `Machine::new`: copy the program and append 1000 zeroed scratch cells. -/
def Machine.new (prog : List Int) : Machine :=
  { mem := prog ++ List.replicate 1000 0
    pos := 0
    inputs := []
    outputs := []
    input_pos := 0
    output_pos := 0
    status := MachineStatus.Runnable
    relative_base := 0 }

/-- Rust `self.mem[i]` for a `usize` index: `none` models the
index-out-of-bounds panic. -/
def memRead (mem : List Int) (i : Nat) : Option Int :=
  mem.get? i

/-- Rust `self.mem[a as usize]` address check for an `i64` address `a`:
a negative address casts to a huge `usize` and the index panics (`none`);
otherwise the index must be in bounds. -/
def castIndex (mem : List Int) (a : Int) : Option Nat :=
  if a < 0 then none
  else if a.toNat < mem.length then some a.toNat else none

/-- Rust `target as usize` for an instruction-pointer assignment (opcodes
5/6); for the non-negative targets of any run that does not subsequently
fault this is just `toNat`, and a negative target wraps to a huge index
exactly as `as usize` does. -/
def usizeCast (a : Int) : Nat :=
  (a.emod ((2 : Int) ^ 64)).toNat

/-- Addressing-mode digit of operand `arg` in `Machine::arg`:
`(self.mem[self.pos] / 100 / 10^arg) % 10` in `i64` arithmetic. -/
def modeOf (instr : Int) (arg : Nat) : Int :=
  ((instr.tdiv 100).tdiv ((10 : Int) ^ arg)).tmod 10

/-- The mode match inside `Machine::arg`, before any bounds check:
mode 0 resolves to the operand value as an address, mode 1 to the operand
cell itself, mode 2 to `relative_base + value`; any other mode is the
`panic!()` arm (`none`). -/
def resolveAddr (instr : Int) (rb : Int) (pos arg : Nat) (v : Int) : Option Int :=
  let md := modeOf instr arg
  if md = 0 then some v
  else if md = 1 then some ((pos + 1 + arg : Nat) : Int)
  else if md = 2 then some (rb + v)
  else none

/-- `Machine::arg` as a resolved index into `mem`: fetch the instruction,
fetch the operand cell, apply the mode match, and bounds-check the final
index.  `none` is any of the panics (out-of-bounds fetch, bad mode,
out-of-bounds or negative resolved address). -/
def argAddrRaw (mem : List Int) (rb : Int) (pos arg : Nat) : Option Nat :=
  (memRead mem pos).bind fun instr =>
    (memRead mem (pos + 1 + arg)).bind fun v =>
      (resolveAddr instr rb pos arg v).bind fun a =>
        castIndex mem a

/-- `*self.arg(k)` used as a read. -/
def readRaw (mem : List Int) (rb : Int) (pos arg : Nat) : Option Int :=
  (argAddrRaw mem rb pos arg).bind fun i => memRead mem i

/-- `Machine::arg` on a machine state. -/
def argAddr (m : Machine) (arg : Nat) : Option Nat :=
  argAddrRaw m.mem m.relative_base m.pos arg

/-- `*self.arg(k)` used as a read, on a machine state. -/
def readArg (m : Machine) (arg : Nat) : Option Int :=
  readRaw m.mem m.relative_base m.pos arg

/-- One iteration of the `loop` body of `Machine::run`.  `none` is a panic;
`some (m, true)` means the iteration executed a `return` (after setting
`status`); `some (m, false)` means the loop continues. -/
def step (m : Machine) : Option (Machine × Bool) :=
  (memRead m.mem m.pos).bind fun instr =>
    let op := instr.tmod 100
    if op = 1 then
      (readArg m 0).bind fun a =>
        (readArg m 1).bind fun b =>
          (argAddr m 2).map fun w =>
            ({ m with mem := m.mem.set w (a + b), pos := m.pos + 4 }, false)
    else if op = 2 then
      (readArg m 0).bind fun a =>
        (readArg m 1).bind fun b =>
          (argAddr m 2).map fun w =>
            ({ m with mem := m.mem.set w (a * b), pos := m.pos + 4 }, false)
    else if op = 3 then
      if m.input_pos < m.inputs.length then
        (argAddr m 0).map fun w =>
          ({ m with mem := m.mem.set w (m.inputs.getD m.input_pos 0)
                    input_pos := m.input_pos + 1
                    pos := m.pos + 2 }, false)
      else some ({ m with status := MachineStatus.Blocked }, true)
    else if op = 4 then
      (readArg m 0).map fun v =>
        ({ m with outputs := m.outputs ++ [v], pos := m.pos + 2 }, false)
    else if op = 5 then
      (readArg m 0).bind fun c =>
        (readArg m 1).map fun t =>
          (if c ≠ 0 then { m with pos := usizeCast t }
           else { m with pos := m.pos + 3 }, false)
    else if op = 6 then
      (readArg m 0).bind fun c =>
        (readArg m 1).map fun t =>
          (if c = 0 then { m with pos := usizeCast t }
           else { m with pos := m.pos + 3 }, false)
    else if op = 7 then
      (readArg m 0).bind fun a =>
        (readArg m 1).bind fun b =>
          (argAddr m 2).map fun w =>
            ({ m with mem := m.mem.set w (if a < b then 1 else 0), pos := m.pos + 4 }, false)
    else if op = 8 then
      (readArg m 0).bind fun a =>
        (readArg m 1).bind fun b =>
          (argAddr m 2).map fun w =>
            ({ m with mem := m.mem.set w (if a = b then 1 else 0), pos := m.pos + 4 }, false)
    else if op = 9 then
      (readArg m 0).map fun v =>
        ({ m with relative_base := m.relative_base + v, pos := m.pos + 2 }, false)
    else if op = 99 then
      some ({ m with status := MachineStatus.Finished }, true)
    else
      some ({ m with status := MachineStatus.BadOpcode op }, true)

/-- The `loop` of `Machine::run`, with fuel: `none` is a panic or fuel
exhaustion, `some` a `return`. -/
def go : Nat → Machine → Option Machine
  | 0, _ => none
  | f + 1, m =>
    match step m with
    | none => none
    | some (m1, true) => some m1
    | some (m1, false) => go f m1

/-- `Machine::run`: an early no-op return in a terminal status, otherwise
the instruction loop. -/
def run (f : Nat) (m : Machine) : Option Machine :=
  match m.status with
  | MachineStatus.Finished => some m
  | MachineStatus.BadOpcode _ => some m
  | _ => go f m

/-- The tile map `tiles: HashMap<(i64,i64), i64>`, embedded as an
association list with unique keys; insertion overwrites an existing key in
place or appends a new one. -/
def tinsert (t : List ((Int × Int) × Int)) (k : Int × Int) (v : Int) :
    List ((Int × Int) × Int) :=
  match t with
  | [] => [(k, v)]
  | (k1, v1) :: rest =>
    if k1 = k then (k, v) :: rest else (k1, v1) :: tinsert rest k v

/-- `struct World`. -/
structure World where
  machine : Machine
  tiles : List ((Int × Int) × Int)
  score : Int
  paddle_x : Int
  ball_x : Int
deriving DecidableEq, Repr

/-- `World::new`. -/
def World.new (m : Machine) : World :=
  { machine := m, tiles := [], score := 0, paddle_x := 0, ball_x := 0 }

/-- `World::count_blocks`: the number of stored tiles whose code is 2. -/
def countBlocks (t : List ((Int × Int) × Int)) : Nat :=
  (t.filter fun p => p.2 == 2).length

/-- `World::count_blocks` on a world. -/
def World.count_blocks (w : World) : Nat :=
  countBlocks w.tiles

/-- The `for chunk in output.chunks(3)` loop of `World::process`: every
chunk (including a `(-1, 0, c)` triple) is inserted into the tile map; a
trailing chunk of length 1 or 2 panics at `chunk[1]` / `chunk[2]`
(`none`). -/
def processChunks (t : List ((Int × Int) × Int)) :
    List Int → Option (List ((Int × Int) × Int))
  | [] => some t
  | [_] => none
  | [_, _] => none
  | x :: y :: c :: rest => processChunks (tinsert t (x, y) c) rest

/-- `World::process`: run the machine, then decode the whole accumulated
output sequence in chunks of three as tile updates. -/
def World.process (f : Nat) (w : World) : Option World :=
  (run f w.machine).bind fun m1 =>
    (processChunks w.tiles m1.outputs).map fun t =>
      { w with machine := m1, tiles := t }

/-- The `for chunk in output.chunks(3)` loop of `World::play`: a
`(-1, 0, c)` triple sets the score, any other triple sets the tile and
tracks the paddle/ball x positions; a partial trailing chunk panics
(`none`). -/
def playChunks (w : World) : List Int → Option World
  | [] => some w
  | [_] => none
  | [_, _] => none
  | x :: y :: c :: rest =>
    if x = -1 ∧ y = 0 then
      playChunks { w with score := c } rest
    else
      playChunks
        { w with tiles := tinsert w.tiles (x, y) c
                 paddle_x := if c = 3 then x else w.paddle_x
                 ball_x := if c = 4 then x else w.ball_x } rest

/-- The input decision at the bottom of the `World::play` loop:
`ball_x.cmp(&paddle_x)` mapped to `-1 / 0 / 1`. -/
def autoInput (w : World) : Int :=
  if w.ball_x < w.paddle_x then -1
  else if w.ball_x = w.paddle_x then 0
  else 1

/-- The `loop` of `World::play`, with fuel `f` for the outer loop and `rf`
for each inner `Machine::run` call: clear the accumulated outputs, run the
machine, decode the newly produced outputs, return if no breakable blocks
remain or the machine finished, otherwise append one autopilot input and
repeat. -/
def playLoop : Nat → Nat → World → Option World
  | 0, _, _ => none
  | f + 1, rf, w =>
    (run rf { w.machine with outputs := [] }).bind fun m1 =>
      (playChunks { w with machine := m1 } m1.outputs).bind fun w1 =>
        if countBlocks w1.tiles = 0 then some w1
        else if w1.machine.status = MachineStatus.Finished then some w1
        else
          playLoop f rf
            { w1 with machine :=
                { w1.machine with inputs := w1.machine.inputs ++ [autoInput w1] } }

/-- `World::play`: set memory cell 0 to 2 (a panic if memory is empty),
then the game loop. -/
def World.play (f rf : Nat) (w : World) : Option World :=
  if w.machine.mem.length = 0 then none
  else playLoop f rf { w with machine := { w.machine with mem := w.machine.mem.set 0 2 } }

/-! ## Helper lemmas about `step`, `go` and `run` -/

/-- A loop iteration that does not execute a `return` leaves `status`
untouched, and an iteration that does `return` has just set `status` to
`Blocked`, `Finished` or `BadOpcode`. -/
theorem step_status (m m1 : Machine) (b : Bool) (h : step m = some (m1, b)) :
    (b = false ∧ m1.status = m.status) ∨
      (b = true ∧ (m1.status = MachineStatus.Blocked ∨ m1.status = MachineStatus.Finished ∨
        ∃ c, m1.status = MachineStatus.BadOpcode c)) := by
  unfold step at h
  cases hinstr : memRead m.mem m.pos with
  | none => rw [hinstr] at h; simp at h
  | some instr =>
    rw [hinstr] at h
    simp only [Option.some_bind] at h
    by_cases h1 : instr.tmod 100 = 1
    · rw [h1] at h
      norm_num [Option.bind_eq_some, Option.map_eq_some'] at h
      obtain ⟨a, -, b', -, w, -, h, hb⟩ := h
      subst h; subst hb; left; exact ⟨rfl, rfl⟩
    · rw [if_neg h1] at h
      by_cases h2 : instr.tmod 100 = 2
      · rw [h2] at h
        norm_num [Option.bind_eq_some, Option.map_eq_some'] at h
        obtain ⟨a, -, b', -, w, -, h, hb⟩ := h
        subst h; subst hb; left; exact ⟨rfl, rfl⟩
      · rw [if_neg h2] at h
        by_cases h3 : instr.tmod 100 = 3
        · rw [h3] at h
          norm_num at h
          by_cases hin : m.input_pos < m.inputs.length
          · rw [if_pos hin] at h
            norm_num [Option.map_eq_some'] at h
            obtain ⟨w, -, h, hb⟩ := h
            subst h; subst hb; left; exact ⟨rfl, rfl⟩
          · rw [if_neg hin] at h
            norm_num at h
            obtain ⟨h, hb⟩ := h
            subst h; subst hb; right; exact ⟨rfl, Or.inl rfl⟩
        · rw [if_neg h3] at h
          by_cases h4 : instr.tmod 100 = 4
          · rw [h4] at h
            norm_num [Option.map_eq_some'] at h
            obtain ⟨v, -, h, hb⟩ := h
            subst h; subst hb; left; exact ⟨rfl, rfl⟩
          · rw [if_neg h4] at h
            by_cases h5 : instr.tmod 100 = 5
            · rw [h5] at h
              norm_num [Option.bind_eq_some, Option.map_eq_some'] at h
              obtain ⟨c, -, t, -, h, hb⟩ := h
              subst hb; subst h
              left; refine ⟨rfl, ?_⟩; split <;> rfl
            · rw [if_neg h5] at h
              by_cases h6 : instr.tmod 100 = 6
              · rw [h6] at h
                norm_num [Option.bind_eq_some, Option.map_eq_some'] at h
                obtain ⟨c, -, t, -, h, hb⟩ := h
                subst hb; subst h
                left; refine ⟨rfl, ?_⟩; split <;> rfl
              · rw [if_neg h6] at h
                by_cases h7 : instr.tmod 100 = 7
                · rw [h7] at h
                  norm_num [Option.bind_eq_some, Option.map_eq_some'] at h
                  obtain ⟨a, -, b', -, w, -, h, hb⟩ := h
                  subst h; subst hb; left; exact ⟨rfl, rfl⟩
                · rw [if_neg h7] at h
                  by_cases h8 : instr.tmod 100 = 8
                  · rw [h8] at h
                    norm_num [Option.bind_eq_some, Option.map_eq_some'] at h
                    obtain ⟨a, -, b', -, w, -, h, hb⟩ := h
                    subst h; subst hb; left; exact ⟨rfl, rfl⟩
                  · rw [if_neg h8] at h
                    by_cases h9 : instr.tmod 100 = 9
                    · rw [h9] at h
                      norm_num [Option.map_eq_some'] at h
                      obtain ⟨v, -, h, hb⟩ := h
                      subst h; subst hb; left; exact ⟨rfl, rfl⟩
                    · rw [if_neg h9] at h
                      by_cases h99 : instr.tmod 100 = 99
                      · rw [h99] at h
                        norm_num at h
                        obtain ⟨h, hb⟩ := h
                        subst h; subst hb; right; exact ⟨rfl, Or.inr (Or.inl rfl)⟩
                      · rw [if_neg h99] at h
                        norm_num at h
                        obtain ⟨h, hb⟩ := h
                        subst h; subst hb
                        right; exact ⟨rfl, Or.inr (Or.inr ⟨instr.tmod 100, rfl⟩)⟩

/-- Whenever the loop of `run` executes a `return`, the returned status is
`Blocked`, `Finished` or `BadOpcode`. -/
theorem go_status (f : Nat) (m m1 : Machine) (h : go f m = some m1) :
    m1.status = MachineStatus.Blocked ∨ m1.status = MachineStatus.Finished ∨
      ∃ c, m1.status = MachineStatus.BadOpcode c := by
  induction f generalizing m with
  | zero => simp [go] at h
  | succ f ih =>
    unfold go at h
    cases hstep : step m with
    | none => rw [hstep] at h; simp at h
    | some p =>
      rw [hstep] at h
      obtain ⟨m2, b⟩ := p
      cases b with
      | true =>
        simp only [Option.some.injEq] at h
        rcases step_status m m2 true hstep with ⟨hb, -⟩ | ⟨-, hs⟩
        · exact absurd hb (by simp)
        · rw [h] at hs; exact hs
      | false => exact ih m2 h

/-- Characterization of an add step (opcode 1): the write goes to the
index resolved by `argAddr` — the same resolver used for the reads. -/
theorem step_add (m : Machine) (instr a b : Int) (w : Nat)
    (hinstr : memRead m.mem m.pos = some instr) (hop : instr.tmod 100 = 1)
    (ha : readArg m 0 = some a) (hb : readArg m 1 = some b)
    (hw : argAddr m 2 = some w) :
    step m = some ({ m with mem := m.mem.set w (a + b), pos := m.pos + 4 }, false) := by
  unfold step
  rw [hinstr]
  simp only [Option.some_bind]
  rw [hop]
  norm_num [ha, hb, hw]

/-- Characterization of a multiply step (opcode 2). -/
theorem step_mul (m : Machine) (instr a b : Int) (w : Nat)
    (hinstr : memRead m.mem m.pos = some instr) (hop : instr.tmod 100 = 2)
    (ha : readArg m 0 = some a) (hb : readArg m 1 = some b)
    (hw : argAddr m 2 = some w) :
    step m = some ({ m with mem := m.mem.set w (a * b), pos := m.pos + 4 }, false) := by
  unfold step
  rw [hinstr]
  simp only [Option.some_bind]
  rw [hop]
  norm_num [ha, hb, hw]

/-- Characterization of a halt step (opcode 99). -/
theorem step_halt (m : Machine) (instr : Int)
    (hinstr : memRead m.mem m.pos = some instr) (hop : instr.tmod 100 = 99) :
    step m = some ({ m with status := MachineStatus.Finished }, true) := by
  unfold step
  rw [hinstr]
  simp only [Option.some_bind]
  rw [hop]
  norm_num

/-- Characterization of an input step (opcode 3) with no pending input:
the iteration only sets `status := Blocked` and executes a `return`. -/
theorem step_input_blocked (m : Machine) (instr : Int)
    (hinstr : memRead m.mem m.pos = some instr) (hop : instr.tmod 100 = 3)
    (hin : m.inputs.length ≤ m.input_pos) :
    step m = some ({ m with status := MachineStatus.Blocked }, true) := by
  unfold step
  rw [hinstr]
  simp only [Option.some_bind]
  rw [hop]
  norm_num [Nat.not_lt.mpr hin]

/-- Characterization of an input step (opcode 3) with a pending input:
the input is written to the resolved target, the input cursor advances by
one and the pointer by two. -/
theorem step_input_consume (m : Machine) (instr : Int) (w : Nat)
    (hinstr : memRead m.mem m.pos = some instr) (hop : instr.tmod 100 = 3)
    (hin : m.input_pos < m.inputs.length) (hw : argAddr m 0 = some w) :
    step m = some ({ m with mem := m.mem.set w (m.inputs.getD m.input_pos 0)
                            input_pos := m.input_pos + 1
                            pos := m.pos + 2 }, false) := by
  unfold step
  rw [hinstr]
  simp only [Option.some_bind]
  rw [hop]
  norm_num [hin, hw]

/-- `run` on a non-terminal status enters the instruction loop. -/
theorem run_nonterminal (f : Nat) (m : Machine)
    (h : m.status = MachineStatus.Runnable ∨ m.status = MachineStatus.Blocked) :
    run f m = go f m := by
  unfold run
  rcases h with h | h <;> rw [h]

/-- A loop that starts with a returning iteration returns its result. -/
theorem go_of_step_ret (f : Nat) (m m1 : Machine)
    (h : step m = some (m1, true)) : go (f + 1) m = some m1 := by
  unfold go
  rw [h]

/-- A loop that starts with a continuing iteration continues from its
result. -/
theorem go_of_step_cont (f : Nat) (m m1 : Machine)
    (h : step m = some (m1, false)) : go (f + 1) m = go f m1 := by
  have hgo : go (f + 1) m =
      match step m with
      | none => none
      | some (m2, true) => some m2
      | some (m2, false) => go f m2 := rfl
  rw [hgo, h]

/-! ## Specification-side evaluator for the add/multiply fragment (§4.1)

A second definition, following the words of spec §8 / §4.1 for programs
that use only opcodes 1, 2 and 99: each instruction is applied
left-to-right to the pair (memory, pointer); opcode 1 stores
`read(0) + read(1)` and advances the pointer by 4, opcode 2 stores
`read(0) * read(1)` and advances by 4, opcode 99 halts.  Any other opcode
is outside the fragment (`none`).  The machine implementation is proved
to refine it. -/

/-- One §4.1 rule applied to (memory, pointer); the `Bool` means the halt
instruction was reached. -/
def specAddMulStep (rb : Int) (mem : List Int) (pos : Nat) :
    Option (List Int × Nat × Bool) :=
  (memRead mem pos).bind fun instr =>
    let op := instr.tmod 100
    if op = 1 then
      (readRaw mem rb pos 0).bind fun a =>
        (readRaw mem rb pos 1).bind fun b =>
          (argAddrRaw mem rb pos 2).map fun w => (mem.set w (a + b), pos + 4, false)
    else if op = 2 then
      (readRaw mem rb pos 0).bind fun a =>
        (readRaw mem rb pos 1).bind fun b =>
          (argAddrRaw mem rb pos 2).map fun w => (mem.set w (a * b), pos + 4, false)
    else if op = 99 then some (mem, pos, true)
    else none

/-- The §4.1 rules applied instruction by instruction until the halt
instruction, with fuel. -/
def specAddMulRun : Nat → Int → List Int → Nat → Option (List Int × Nat)
  | 0, _, _, _ => none
  | f + 1, rb, mem, pos =>
    (specAddMulStep rb mem pos).bind fun s =>
      if s.2.2 then some (s.1, s.2.1) else specAddMulRun f rb s.1 s.2.1

/-- The instruction loop refines the §4.1 evaluator: whenever the spec
evaluator completes (so the program uses only opcodes 1, 2 and 99 on the
path it takes), the loop returns with the spec's memory and pointer and
the `Finished` status, all other fields untouched. -/
theorem go_addmul (f : Nat) (m : Machine) (mem1 : List Int) (pos1 : Nat)
    (h : specAddMulRun f m.relative_base m.mem m.pos = some (mem1, pos1)) :
    go f m = some { m with mem := mem1, pos := pos1, status := MachineStatus.Finished } := by
  induction f generalizing m mem1 pos1 with
  | zero => simp [specAddMulRun] at h
  | succ f ih =>
    unfold specAddMulRun specAddMulStep at h
    cases hinstr : memRead m.mem m.pos with
    | none => rw [hinstr] at h; simp at h
    | some instr =>
      rw [hinstr] at h
      simp only [Option.some_bind] at h
      by_cases h1 : instr.tmod 100 = 1
      · rw [h1] at h
        norm_num at h
        cases ha : readRaw m.mem m.relative_base m.pos 0 with
        | none => rw [ha] at h; simp at h
        | some a =>
          rw [ha] at h
          cases hb : readRaw m.mem m.relative_base m.pos 1 with
          | none => rw [hb] at h; simp at h
          | some b =>
            rw [hb] at h
            cases hw : argAddrRaw m.mem m.relative_base m.pos 2 with
            | none => rw [hw] at h; simp at h
            | some w =>
              rw [hw] at h
              simp only [Option.some_bind, Option.map_some'] at h
              norm_num at h
              rw [go_of_step_cont f m _ (step_add m instr a b w hinstr h1 ha hb hw)]
              exact ih _ mem1 pos1 h
      · rw [if_neg h1] at h
        by_cases h2 : instr.tmod 100 = 2
        · rw [h2] at h
          norm_num at h
          cases ha : readRaw m.mem m.relative_base m.pos 0 with
          | none => rw [ha] at h; simp at h
          | some a =>
            rw [ha] at h
            cases hb : readRaw m.mem m.relative_base m.pos 1 with
            | none => rw [hb] at h; simp at h
            | some b =>
              rw [hb] at h
              cases hw : argAddrRaw m.mem m.relative_base m.pos 2 with
              | none => rw [hw] at h; simp at h
              | some w =>
                rw [hw] at h
                simp only [Option.some_bind, Option.map_some'] at h
                norm_num at h
                rw [go_of_step_cont f m _ (step_mul m instr a b w hinstr h2 ha hb hw)]
                exact ih _ mem1 pos1 h
        · rw [if_neg h2] at h
          by_cases h99 : instr.tmod 100 = 99
          · rw [h99] at h
            norm_num at h
            obtain ⟨hm, hp⟩ := h
            rw [go_of_step_ret f m _ (step_halt m instr hinstr h99)]
            rw [← hm, ← hp]
          · rw [if_neg h99] at h
            simp at h

/-! ## Helper lemmas about the World decoding loops -/

/-- The `process` chunk loop completes exactly on output sequences whose
length is a multiple of three; a partial trailing group is a fault. -/
theorem processChunks_isSome (t : List ((Int × Int) × Int)) (out : List Int) :
    (processChunks t out).isSome = true ↔ out.length % 3 = 0 := by
  induction t, out using processChunks.induct with
  | case1 t => simp [processChunks]
  | case2 t x => simp [processChunks]
  | case3 t x y => simp [processChunks]
  | case4 t x y c rest ih =>
    simp only [processChunks, List.length_cons, ih]
    omega

/-- The `play` chunk loop completes exactly on output sequences whose
length is a multiple of three. -/
theorem playChunks_isSome (w : World) (out : List Int) :
    (playChunks w out).isSome = true ↔ out.length % 3 = 0 := by
  induction w, out using playChunks.induct with
  | case1 w => simp [playChunks]
  | case2 w x => simp [playChunks]
  | case3 w x y => simp [playChunks]
  | case4 w x y c rest h ih =>
    simp only [playChunks, List.length_cons]
    rw [if_pos h, ih]
    omega
  | case5 w x y c rest h ih =>
    simp only [playChunks, List.length_cons]
    rw [if_neg h, ih]
    omega

/-- Clearing the accumulated outputs is the first action of every `play`
loop iteration, so output already present when the iteration starts is
never decoded. -/
theorem playLoop_clears_outputs (f rf : Nat) (w : World) :
    playLoop (f + 1) rf w =
      playLoop (f + 1) rf { w with machine := { w.machine with outputs := [] } } := rfl

/-! ## Concrete machines used as test inputs -/

/-- A program whose single run emits exactly one output integer. -/
def machC1 : Machine :=
  ⟨[104, 5, 99], 0, [], [], 0, 0, MachineStatus.Runnable, 0⟩

/-- A program whose single run emits exactly the triple `(-1, 0, 1234)`. -/
def machC2 : Machine :=
  ⟨[104, -1, 104, 0, 104, 1234, 99], 0, [], [], 0, 0, MachineStatus.Runnable, 0⟩

/-- A halted machine used to observe score preservation of `process`. -/
def machC2b : Machine :=
  ⟨[99], 0, [], [], 0, 0, MachineStatus.Runnable, 0⟩

/-- An add instruction whose write operand (operand 2) has mode 1. -/
def machC3 : Machine :=
  ⟨[10001, 0, 0, 0, 99], 0, [], [], 0, 0, MachineStatus.Runnable, 0⟩

/-- An add instruction with immediate reads and a position-mode write. -/
def machC3b : Machine :=
  ⟨[1101, 2, 3, 0, 99], 0, [], [], 0, 0, MachineStatus.Runnable, 0⟩

/-- An input instruction with no pending input. -/
def machC4 : Machine :=
  ⟨[3, 0, 99], 0, [], [], 0, 0, MachineStatus.Runnable, 0⟩

/-- A machine already in the `Finished` status. -/
def machC5 : Machine :=
  ⟨[99], 3, [1], [2], 0, 0, MachineStatus.Finished, 5⟩

/-- A machine already in the `BadOpcode` status. -/
def machC5b : Machine :=
  ⟨[], 0, [], [], 0, 0, MachineStatus.BadOpcode 42, 0⟩

/-- The canonical add/mul program `[1,0,0,0,99]`. -/
def machC7 : Machine :=
  ⟨[1, 0, 0, 0, 99], 0, [], [], 0, 0, MachineStatus.Runnable, 0⟩

/-- A world whose machine is already `Finished` with no output: the first
`play` iteration decodes nothing and sees zero breakable blocks. -/
def worldC8 : World :=
  World.new ⟨[99], 0, [], [], 0, 0, MachineStatus.Finished, 0⟩

/-- An add instruction whose operand 0 has addressing mode 3. -/
def machC9 : Machine :=
  ⟨[301, 0, 0, 0, 99], 0, [], [], 0, 0, MachineStatus.Runnable, 0⟩

/-- A halt-only program. -/
def machC10 : Machine :=
  ⟨[99], 0, [], [], 0, 0, MachineStatus.Runnable, 0⟩

/-! ## Claims -/

/-- C1 counterexample: the claim says decoding succeeds on any output
sequence of any length, a partial trailing group being left unconsumed.
On this machine a run produces the single output `[5]` (no fault in the
machine), and `World::process` then faults (`chunk[1]` is out of bounds
on the length-1 trailing chunk): decoding does not succeed and the
partial group is not left unconsumed. -/
theorem c1_counterexample :
    run 2 machC1 = some ⟨[104, 5, 99], 2, [], [5], 0, 0, MachineStatus.Finished, 0⟩ ∧
      World.process 2 (World.new machC1) = none :=
  ⟨rfl, rfl⟩

/-- C1 amended: both decode loops complete exactly on output sequences
whose length is a multiple of three — a partial trailing group is an
index-out-of-bounds fault, not left unconsumed — and groups consumed in a
previous play cycle are never reprocessed because `play` clears the
accumulated outputs before each run. -/
theorem c1_grouping :
    (∀ (t : List ((Int × Int) × Int)) (out : List Int),
        (processChunks t out).isSome = true ↔ out.length % 3 = 0) ∧
      (∀ (w : World) (out : List Int),
        (playChunks w out).isSome = true ↔ out.length % 3 = 0) ∧
      (∀ (f rf : Nat) (w : World),
        playLoop (f + 1) rf w =
          playLoop (f + 1) rf { w with machine := { w.machine with outputs := [] } }) :=
  ⟨processChunks_isSome, playChunks_isSome, playLoop_clears_outputs⟩

/-- C1 amended, evaluated: a length-3 output decodes, a length-1 output
faults, and the clearing equation at a concrete world. -/
theorem c1_grouping_witness :
    (processChunks [] [5, 3, 2]).isSome = true ∧
      ¬(playChunks (World.new machC1) [5]).isSome = true ∧
      playLoop 1 2 (World.new machC1) =
        playLoop 1 2 { World.new machC1 with
          machine := { (World.new machC1).machine with outputs := [] } } :=
  ⟨(c1_grouping.1 [] [5, 3, 2]).mpr rfl,
   fun h => by simpa using (c1_grouping.2.1 (World.new machC1) [5]).mp h,
   c1_grouping.2.2 0 2 (World.new machC1)⟩

/-- C2 counterexample: in free-run mode `World::process` performs no
score/tile disambiguation — the decoded triple `(-1, 0, 1234)` is
inserted into the tile mapping at key `(-1, 0)` and `score` stays `0`,
where the claim requires `score = 1234` and no tile insertion. -/
theorem c2_counterexample :
    World.process 4 (World.new machC2) =
      some ⟨⟨[104, -1, 104, 0, 104, 1234, 99], 6, [], [-1, 0, 1234], 0, 0,
              MachineStatus.Finished, 0⟩,
            [((-1, 0), 1234)], 0, 0, 0⟩ :=
  rfl

/-- C2 amended: the disambiguation holds in play mode only — `playChunks`
sends a `(-1, 0, c)` triple to `score` leaving the tiles unchanged, and
any other triple to the tile mapping leaving `score` unchanged — while
free-run `process` inserts every triple (including `(-1, 0, c)`) as a
tile and never changes `score`. -/
theorem c2_disambiguation :
    (∀ (w : World) (c : Int) (rest : List Int),
        ∃ w2, playChunks w ((-1) :: 0 :: c :: rest) = playChunks w2 rest ∧
          w2.score = c ∧ w2.tiles = w.tiles) ∧
      (∀ (w : World) (x y c : Int) (rest : List Int), ¬(x = -1 ∧ y = 0) →
        ∃ w2, playChunks w (x :: y :: c :: rest) = playChunks w2 rest ∧
          w2.tiles = tinsert w.tiles (x, y) c ∧ w2.score = w.score) ∧
      (∀ (t : List ((Int × Int) × Int)) (x y c : Int) (rest : List Int),
        processChunks t (x :: y :: c :: rest) = processChunks (tinsert t (x, y) c) rest) ∧
      (∀ (f : Nat) (w w1 : World), World.process f w = some w1 → w1.score = w.score) := by
  refine ⟨?_, ?_, ?_, ?_⟩
  · intro w c rest
    exact ⟨{ w with score := c }, by simp [playChunks], rfl, rfl⟩
  · intro w x y c rest h
    refine ⟨{ w with tiles := tinsert w.tiles (x, y) c
                     paddle_x := if c = 3 then x else w.paddle_x
                     ball_x := if c = 4 then x else w.ball_x }, ?_, rfl, rfl⟩
    simp only [playChunks]
    rw [if_neg h]
  · intro t x y c rest
    rfl
  · intro f w w1 h
    simp only [World.process, Option.bind_eq_some, Option.map_eq_some'] at h
    obtain ⟨m1, -, t, -, h⟩ := h
    rw [← h]

/-- C2 amended, evaluated at the triple `(5, 3, 2)` and at a concrete
`process` call. -/
theorem c2_disambiguation_witness :
    (∃ w2, playChunks (World.new machC2b) (5 :: 3 :: 2 :: []) = playChunks w2 [] ∧
        w2.tiles = tinsert (World.new machC2b).tiles (5, 3) 2 ∧
        w2.score = (World.new machC2b).score) ∧
      (⟨⟨[99], 0, [], [], 0, 0, MachineStatus.Finished, 0⟩, [], 0, 0, 0⟩ : World).score =
        (World.new machC2b).score :=
  ⟨c2_disambiguation.2.1 (World.new machC2b) 5 3 2 [] (by decide),
   c2_disambiguation.2.2.2 1 (World.new machC2b)
     ⟨⟨[99], 0, [], [], 0, 0, MachineStatus.Finished, 0⟩, [], 0, 0, 0⟩ rfl⟩

/-- C3 counterexample: the interpreter accepts addressing mode 1 on a
write operand.  Instruction `10001` (opcode 1) decodes mode 1 for its
write operand (operand 2), and the machine executes it without fault,
writing `10001 + 10001` into the operand's own cell (index 3) — the
claim says mode 1 is never used as a write target. -/
theorem c3_counterexample :
    modeOf 10001 2 = 1 ∧
      run 2 machC3 =
        some ⟨[10001, 0, 0, 20002, 99], 4, [], [], 0, 0, MachineStatus.Finished, 0⟩ :=
  ⟨rfl, rfl⟩

/-- C3 amended: write targets resolve through exactly the same addressing
rule as read operands with no mode excluded: an immediate-mode (1) write
operand resolves to the operand's own cell `pointer + 1 + k`, and an add
step writes to whatever index the shared resolver `argAddr` returns for
operand 2 — the same resolver the reads use. -/
theorem c3_write_addressing :
    (∀ (mem : List Int) (rb : Int) (pos k : Nat) (instr v : Int),
        memRead mem pos = some instr →
        memRead mem (pos + 1 + k) = some v →
        modeOf instr k = 1 →
        argAddrRaw mem rb pos k = some (pos + 1 + k)) ∧
      (∀ (m : Machine) (instr a b : Int) (w : Nat),
        memRead m.mem m.pos = some instr → instr.tmod 100 = 1 →
        readArg m 0 = some a → readArg m 1 = some b → argAddr m 2 = some w →
        step m = some ({ m with mem := m.mem.set w (a + b), pos := m.pos + 4 }, false)) := by
  constructor
  · intro mem rb pos k instr v h1 h2 hm
    have hlen : pos + 1 + k < mem.length := by
      by_contra hge
      rw [memRead, List.get?_eq_none.mpr (Nat.le_of_not_lt hge)] at h2
      exact Option.noConfusion h2
    unfold argAddrRaw
    rw [h1]
    simp only [Option.some_bind]
    rw [h2]
    simp only [Option.some_bind, resolveAddr]
    rw [hm]
    norm_num [castIndex]
    omega
  · exact fun m instr a b w h1 h2 h3 h4 h5 => step_add m instr a b w h1 h2 h3 h4 h5

/-- C3 amended, evaluated: instruction `101` has mode 1 on operand 0 and
resolves to cell 1; the add step of `machC3b` writes through `argAddr`. -/
theorem c3_write_addressing_witness :
    argAddrRaw [101, 5] 0 0 0 = some 1 ∧
      step machC3b =
        some ({ machC3b with mem := machC3b.mem.set 0 (2 + 3), pos := machC3b.pos + 4 },
              false) :=
  ⟨c3_write_addressing.1 [101, 5] 0 0 0 101 5 rfl rfl rfl,
   c3_write_addressing.2 machC3b 1101 2 3 0 rfl rfl rfl rfl rfl⟩

/-- C4 (confirmed): on a machine whose current instruction is opcode 3
with the input cursor at the end of the input sequence, `run` returns
with `status = Blocked` and every other field (in particular the
instruction pointer) unchanged; after appending exactly one input `v`,
re-invoking `run` has that same instruction consume `v` — writing it to
the resolved target, advancing the input cursor by one and the pointer by
two — and then continue normally. -/
theorem c4_blocking (f : Nat) (m : Machine) (instr : Int) (w : Nat) (v : Int)
    (hst : m.status = MachineStatus.Runnable ∨ m.status = MachineStatus.Blocked)
    (hinstr : memRead m.mem m.pos = some instr)
    (hop : instr.tmod 100 = 3)
    (hcur : m.input_pos = m.inputs.length)
    (hw : argAddr m 0 = some w) :
    run (f + 1) m = some { m with status := MachineStatus.Blocked } ∧
      run (f + 1) { m with status := MachineStatus.Blocked, inputs := m.inputs ++ [v] } =
        go f { m with inputs := m.inputs ++ [v]
                      status := MachineStatus.Blocked
                      mem := m.mem.set w v
                      input_pos := m.input_pos + 1
                      pos := m.pos + 2 } := by
  constructor
  · rw [run_nonterminal (f + 1) m hst]
    exact go_of_step_ret f m _ (step_input_blocked m instr hinstr hop (Nat.le_of_eq hcur.symm))
  · rw [run_nonterminal (f + 1) _ (Or.inr rfl)]
    have hin2 : m.input_pos < (m.inputs ++ [v]).length := by
      simp [hcur]
    have hstep := step_input_consume
      { m with status := MachineStatus.Blocked, inputs := m.inputs ++ [v] }
      instr w hinstr hop hin2 hw
    have hv : (m.inputs ++ [v]).getD m.input_pos 0 = v := by
      rw [hcur, List.getD_eq_getElem?_getD, List.getElem?_concat_length]
      rfl
    rw [go_of_step_cont f _ _ hstep, hv]

/-- C4, evaluated on `[3,0,99]` with input `7`. -/
theorem c4_blocking_witness :
    run 2 machC4 = some ⟨[3, 0, 99], 0, [], [], 0, 0, MachineStatus.Blocked, 0⟩ ∧
      run 2 ⟨[3, 0, 99], 0, [7], [], 0, 0, MachineStatus.Blocked, 0⟩ =
        go 1 ⟨[7, 0, 99], 2, [7], [], 1, 0, MachineStatus.Blocked, 0⟩ :=
  c4_blocking 1 machC4 3 0 7 (Or.inl rfl) rfl rfl rfl rfl

/-- C5 (confirmed): invoking `run` on a machine whose status is
`Finished` or `BadOpcode` executes nothing and returns the machine with
every field unchanged. -/
theorem c5_terminal_idempotent (f : Nat) (m : Machine)
    (h : m.status = MachineStatus.Finished ∨ ∃ c, m.status = MachineStatus.BadOpcode c) :
    run f m = some m := by
  unfold run
  rcases h with h | ⟨c, h⟩ <;> rw [h]

/-- C5, evaluated on a `Finished` and a `BadOpcode` machine. -/
theorem c5_terminal_idempotent_witness :
    run 5 machC5 = some machC5 ∧ run 3 machC5b = some machC5b :=
  ⟨c5_terminal_idempotent 5 machC5 (Or.inl rfl),
   c5_terminal_idempotent 3 machC5b (Or.inr ⟨42, rfl⟩)⟩

/-- C6 (confirmed): the addressing mode decoded for operand `k` is
`(instruction / 100 / 10^k) mod 10` — stated once over the machine
integers with the code's truncating arithmetic, and once over the
naturals for non-negative instruction words — and instruction `1002`
decodes to opcode 2 with modes `(0, 1, 0)`. -/
theorem c6_mode_formula :
    (∀ (instr : Int) (k : Nat),
        modeOf instr k = ((instr.tdiv 100).tdiv ((10 : Int) ^ k)).tmod 10) ∧
      (∀ (n k : Nat), modeOf (n : Int) k = ((n / 100 / 10 ^ k % 10 : Nat) : Int)) ∧
      (modeOf 1002 0 = 0 ∧ modeOf 1002 1 = 1 ∧ modeOf 1002 2 = 0 ∧
        (1002 : Int).tmod 100 = 2) := by
  refine ⟨fun instr k => rfl, ?_, by decide, by decide, by decide, by decide⟩
  intro n k
  have hpow : ((10 : Int)) ^ k = ((10 ^ k : Nat) : Int) := by
    push_cast
    ring
  have h1 : (n : Int).tdiv (100 : Int) = ((n / 100 : Nat) : Int) := rfl
  have h2 : ((n / 100 : Nat) : Int).tdiv (((10 ^ k : Nat)) : Int) =
      ((n / 100 / 10 ^ k : Nat) : Int) := rfl
  have h3 : ((n / 100 / 10 ^ k : Nat) : Int).tmod (10 : Int) =
      ((n / 100 / 10 ^ k % 10 : Nat) : Int) := rfl
  unfold modeOf
  rw [hpow, h1, h2, h3]

/-- C7 (confirmed): whenever the §4.1 evaluator for the add/multiply/halt
fragment completes on a machine's memory and pointer, running that
machine leaves memory and pointer equal to the evaluator's result with
status `Finished` and all other fields unchanged; in particular the
canonical program `[1,0,0,0,99]` finishes with `memory[0] = 2`. -/
theorem c7_addmul_refinement :
    (∀ (f : Nat) (m : Machine) (mem1 : List Int) (pos1 : Nat),
        m.status = MachineStatus.Runnable →
        specAddMulRun f m.relative_base m.mem m.pos = some (mem1, pos1) →
        run f m = some { m with mem := mem1, pos := pos1, status := MachineStatus.Finished }) ∧
      run 2 machC7 = some ⟨[2, 0, 0, 0, 99], 4, [], [], 0, 0, MachineStatus.Finished, 0⟩ ∧
      ([2, 0, 0, 0, 99] : List Int).get? 0 = some 2 := by
  refine ⟨?_, rfl, rfl⟩
  intro f m mem1 pos1 hst h
  rw [run_nonterminal f m (Or.inl hst)]
  exact go_addmul f m mem1 pos1 h

/-- C7, evaluated: the refinement applied to the canonical program. -/
theorem c7_addmul_refinement_witness :
    run 2 machC7 =
      some { machC7 with mem := [2, 0, 0, 0, 99], pos := 4,
                         status := MachineStatus.Finished } :=
  c7_addmul_refinement.1 2 machC7 [2, 0, 0, 0, 99] 4 rfl rfl

/-- C8 (confirmed): whatever the machine status is after an iteration's
run-and-decode phase, if the count of tiles coded 2 is then zero the play
loop returns that decoded world exactly — the machine is not run again
and no input is appended — and if the count is non-zero (and the machine
has not finished) the loop continues with exactly one autopilot input
appended. -/
theorem c8_termination (f rf : Nat) (w : World) (m1 : Machine) (w1 : World)
    (hrun : run rf { w.machine with outputs := [] } = some m1)
    (hdec : playChunks { w with machine := m1 } m1.outputs = some w1) :
    (countBlocks w1.tiles = 0 → playLoop (f + 1) rf w = some w1) ∧
      (countBlocks w1.tiles ≠ 0 → w1.machine.status ≠ MachineStatus.Finished →
        playLoop (f + 1) rf w =
          playLoop f rf
            { w1 with machine :=
                { w1.machine with inputs := w1.machine.inputs ++ [autoInput w1] } }) := by
  constructor
  · intro h0
    unfold playLoop
    rw [hrun]
    simp only [Option.some_bind]
    rw [hdec]
    simp only [Option.some_bind]
    rw [if_pos h0]
  · intro h0 hf
    have hpl : playLoop (f + 1) rf w =
        (run rf { w.machine with outputs := [] }).bind fun a =>
          (playChunks { w with machine := a } a.outputs).bind fun b =>
            if countBlocks b.tiles = 0 then some b
            else if b.machine.status = MachineStatus.Finished then some b
            else playLoop f rf
              { b with machine :=
                  { b.machine with inputs := b.machine.inputs ++ [autoInput b] } } := rfl
    rw [hpl, hrun]
    simp only [Option.some_bind]
    rw [hdec]
    simp only [Option.some_bind]
    rw [if_neg h0, if_neg hf]

/-- C8, evaluated: a world with no tiles (zero breakable blocks) returns
from the first play iteration even though nothing has finished running
before it — here the machine is `Finished`, and the loop returns the
decoded world itself. -/
theorem c8_termination_witness :
    playLoop 1 1 worldC8 = some worldC8 :=
  (c8_termination 0 1 worldC8 worldC8.machine worldC8 rfl rfl).1 rfl

/-- C9 (confirmed): an addressing mode outside {0, 1, 2} makes operand
resolution take the defensive `panic!()` arm — modelled as `none`, a
fault distinct from any returned machine, in particular from one with a
`BadOpcode` status — the step and the surrounding loop produce no
successor state at all; and when the decoded mode is 0, 1 or 2 the
fault arm is unreachable. -/
theorem c9_decode_fault :
    (∀ (instr rb : Int) (pos k : Nat) (v : Int),
        modeOf instr k ≠ 0 → modeOf instr k ≠ 1 → modeOf instr k ≠ 2 →
        resolveAddr instr rb pos k v = none) ∧
      (∀ (instr rb : Int) (pos k : Nat) (v : Int),
        (modeOf instr k = 0 ∨ modeOf instr k = 1 ∨ modeOf instr k = 2) →
        resolveAddr instr rb pos k v ≠ none) ∧
      (∀ (m : Machine) (instr : Int),
        memRead m.mem m.pos = some instr → instr.tmod 100 = 1 → argAddr m 0 = none →
        step m = none) ∧
      (∀ (f : Nat) (m : Machine), step m = none → go (f + 1) m = none) := by
  refine ⟨?_, ?_, ?_, ?_⟩
  · intro instr rb pos k v h0 h1 h2
    simp only [resolveAddr]
    rw [if_neg h0, if_neg h1, if_neg h2]
  · intro instr rb pos k v h
    rcases h with h | h | h <;> simp [resolveAddr, h]
  · intro m instr hinstr hop hnone
    unfold argAddr at hnone
    have hra : readArg m 0 = none := by
      unfold readArg readRaw
      rw [hnone]
      rfl
    unfold step
    rw [hinstr]
    simp only [Option.some_bind]
    rw [hop]
    norm_num [hra]
  · intro f m h
    have hgo : go (f + 1) m =
        match step m with
        | none => none
        | some (m2, true) => some m2
        | some (m2, false) => go f m2 := rfl
    rw [hgo, h]

/-- C9, evaluated: mode 3 resolution faults, mode 0 does not, and the
machine `machC9` (an add whose operand 0 has mode 3) steps to a fault
rather than to any status. -/
theorem c9_decode_fault_witness :
    resolveAddr 300 0 0 0 0 = none ∧
      resolveAddr 2 0 0 0 0 ≠ none ∧
      step machC9 = none ∧
      go 1 machC9 = none :=
  ⟨c9_decode_fault.1 300 0 0 0 0 (by decide) (by decide) (by decide),
   c9_decode_fault.2.1 2 0 0 0 0 (Or.inl (by decide)),
   c9_decode_fault.2.2.1 machC9 301 rfl (by decide) rfl,
   c9_decode_fault.2.2.2 0 machC9 rfl⟩

/-- C10 (confirmed): every `some` result of `run` has status `Blocked`,
`Finished` or `BadOpcode` — never `Runnable` — and a loop iteration that
does not return leaves the status field untouched, so a machine resumed
from `Blocked` keeps status `Blocked` while executing. -/
theorem c10_status_after_run :
    (∀ (f : Nat) (m m1 : Machine), run f m = some m1 →
        m1.status = MachineStatus.Blocked ∨ m1.status = MachineStatus.Finished ∨
          ∃ c, m1.status = MachineStatus.BadOpcode c) ∧
      (∀ (m m1 : Machine), step m = some (m1, false) → m1.status = m.status) := by
  constructor
  · intro f m m1 h
    unfold run at h
    cases hst : m.status with
    | Runnable =>
      rw [hst] at h
      exact go_status f m m1 h
    | Blocked =>
      rw [hst] at h
      exact go_status f m m1 h
    | Finished =>
      rw [hst] at h
      have h2 : some m = some m1 := h
      injection h2 with h3
      rw [← h3]
      exact Or.inr (Or.inl hst)
    | BadOpcode c =>
      rw [hst] at h
      have h2 : some m = some m1 := h
      injection h2 with h3
      rw [← h3]
      exact Or.inr (Or.inr ⟨c, hst⟩)
  · intro m m1 h
    rcases step_status m m1 false h with ⟨-, hs⟩ | ⟨hb, -⟩
    · exact hs
    · exact absurd hb (by simp)

/-- C10, evaluated: a finished run and a continuing add step. -/
theorem c10_status_after_run_witness :
    ((⟨[99], 0, [], [], 0, 0, MachineStatus.Finished, 0⟩ : Machine).status =
        MachineStatus.Blocked ∨
      (⟨[99], 0, [], [], 0, 0, MachineStatus.Finished, 0⟩ : Machine).status =
        MachineStatus.Finished ∨
      ∃ c, (⟨[99], 0, [], [], 0, 0, MachineStatus.Finished, 0⟩ : Machine).status =
        MachineStatus.BadOpcode c) ∧
      (⟨[5, 2, 3, 0, 99], 4, [], [], 0, 0, MachineStatus.Runnable, 0⟩ : Machine).status =
        machC3b.status :=
  ⟨c10_status_after_run.1 1 machC10 ⟨[99], 0, [], [], 0, 0, MachineStatus.Finished, 0⟩ rfl,
   c10_status_after_run.2 machC3b
     ⟨[5, 2, 3, 0, 99], 4, [], [], 0, 0, MachineStatus.Runnable, 0⟩ rfl⟩

end Day13
